import Mathlib

instance {ε α : Type} [DecidableEq ε] [DecidableEq α] : DecidableEq (Except ε α) := fun a b =>
  match a, b with
  | .ok a, .ok b => if h : a = b then .isTrue (by simp [h]) else .isFalse (by simp [h])
  | .error e, .error f => if h : e = f then .isTrue (by simp [h]) else .isFalse (by simp [h])
  | .ok _, .error _ => .isFalse (by simp)
  | .error _, .ok _ => .isFalse (by simp)

/-- Width of a Python slice `l[0:b]` where the stop `b` was computed as a
possibly negative machine integer: a negative stop counts from the end of
the list, clamped at zero. -/
def pyTake (l : List ℚ) (b : ℤ) : List ℚ :=
  if b < 0 then l.take (l.length - b.natAbs) else l.take b.toNat

/-- One contracted shell of a basis; only the angular momentum matters for
the Gaussian-function count (`el.angmom` in the source). -/
structure CGTOBasis where
  angmom : ℕ
deriving DecidableEq, Repr

/-- Embedding of `_num_gauss` (src/main.py:192): counts primitive Gaussian
functions of the basis to be optimized and of the reference basis by the
two accumulation loops `n_basis += 2 * el.angmom + 1`.  The Python function
returns the two-element list `[n_basis, n_restbasis]`, embedded as a pair. -/
def _num_gauss (basis : List (List CGTOBasis)) (restbasis : List (List CGTOBasis)) : ℕ × ℕ :=
  (basis.foldl (fun n b => b.foldl (fun n el => n + (2 * el.angmom + 1)) n) 0,
   restbasis.foldl (fun n b => b.foldl (fun n el => n + (2 * el.angmom + 1)) n) 0)

/-- Embedding of `_cross_selcet` (src/main.py:216): selects one quadrant of
the cross-overlap matrix.  Row/column slicing follows Python semantics
(`crossmat[a:, c:d]` etc.); the `S_12` column stop is the machine integer
`len(crossmat) - num_gauss[1]`, hence `pyTake` over ℤ.  An unrecognized
direction raises, embedded as `Except.error`. -/
def _cross_selcet (crossmat : List (List ℚ)) (num_gauss : ℕ × ℕ) (direction : String) :
    Except String (List (List ℚ)) :=
  if direction = "S_11" then
    .ok ((crossmat.take num_gauss.1).map (fun r => r.take num_gauss.1))
  else if direction = "S_12" then
    .ok ((crossmat.drop num_gauss.1).map (fun r => pyTake r ((crossmat.length : ℤ) - (num_gauss.2 : ℤ))))
  else if direction = "S_21" then
    .ok ((crossmat.take num_gauss.1).map (fun r => r.drop num_gauss.1))
  else if direction = "S_22" then
    .ok ((crossmat.drop num_gauss.1).map (fun r => r.drop num_gauss.1))
  else
    .error "no direction specified"

/-- Inner product of two rows, truncating at the shorter one (the shapes
always agree in well-formed tensor products). -/
def dot (xs ys : List ℚ) : ℚ := (List.zipWith (· * ·) xs ys).sum

/-- Transpose of a rectangular matrix stored as a list of rows (`coeff.T`
in the source). -/
def transpose (m : List (List ℚ)) : List (List ℚ) :=
  (List.range (m.headD []).length).map (fun j => m.map (fun r => r.getD j 0))

/-- `torch.matmul` on 2-D tensors: rows of `A` dotted with columns of `B`. -/
def matMul (A B : List (List ℚ)) : List (List ℚ) :=
  A.map (fun r => (transpose B).map (fun c => dot r c))

/-- `torch.trace`: sum of the main diagonal. -/
def trace (m : List (List ℚ)) : ℚ :=
  ((List.range m.length).map (fun i => (m.getD i []).getD i 0)).sum

/-- Broadcast elementwise product `M * v` of a matrix with a row vector
(`projection * occ` in the source): entry `(i,j)` becomes `M i j * v j`. -/
def mulBroadcast (m : List (List ℚ)) (v : List ℚ) : List (List ℚ) :=
  m.map (fun r => List.zipWith (· * ·) r v)

/-- View a list-of-rows matrix as an `n × n` Mathlib matrix (entries read
with default `0` outside the stored data). -/
def toMatrix (n : ℕ) (m : List (List ℚ)) : Matrix (Fin n) (Fin n) ℚ :=
  Matrix.of fun i j => (m.getD i.val []).getD j.val 0

/-- Store an `n × n` Mathlib matrix back as a list of rows. -/
def ofMatrix {n : ℕ} (A : Matrix (Fin n) (Fin n) ℚ) : List (List ℚ) :=
  (List.finRange n).map (fun i => (List.finRange n).map (fun j => A i j))

/-- `torch.inverse`: the matrix inverse of a square invertible matrix,
realized through the determinant/adjugate formula (which agrees with the
nonsingular inverse whenever the input is invertible). -/
def inverse (m : List (List ℚ)) : List (List ℚ) :=
  ofMatrix ((toMatrix m.length m).det⁻¹ • (toMatrix m.length m).adjugate)

/-- The `n × n` identity matrix as a list of rows. -/
def idMat (n : ℕ) : List (List ℚ) :=
  (List.range n).map (fun i => (List.range n).map (fun j => if i = j then (1 : ℚ) else 0))

/-- Embedding of `_maximise_overlap` (src/main.py:269): selects the named
quadrants `S_12`, `S_21`, `S_22` of the cross-overlap matrix and combines
them step by step exactly as the source does: `s21_c = S_12 @ coeff`,
`s22_s21c = inverse(S_22) @ s21_c`, `s12_s22s21c = S_21 @ s22_s21c`,
`P = coeff.T @ s12_s22s21c`.  A selection failure propagates. -/
def _maximise_overlap (coeff : List (List ℚ)) (colap : List (List ℚ)) (num_gauss : ℕ × ℕ) :
    Except String (List (List ℚ)) :=
  match _cross_selcet colap num_gauss "S_12", _cross_selcet colap num_gauss "S_21",
      _cross_selcet colap num_gauss "S_22" with
  | .ok S_12, .ok S_21, .ok S_22 =>
    let s21_c := matMul S_12 coeff
    let s22_s21c := matMul (inverse S_22) s21_c
    let s12_s22s21c := matMul S_21 s22_s21c
    .ok (matMul (transpose coeff) s12_s22s21c)
  | .error e, _, _ => .error e
  | _, .error e, _ => .error e
  | _, _, .error e => .error e

/-- Embedding of the objective `fcn` (src/main.py:291).  The external
collaborators are abstracted as inputs: `basis` and `ref_basis` stand for
the structured bases reconstructed by the packers from the parameter
vectors, `colap` for the cross-overlap matrix returned by the integral
engine on `basis + ref_basis`, and `occ` for the occupation vector that the
source reads from the module-level global `system` via `system._get_occ()`
(note: `occ` is not one of `fcn`'s declared Python parameters).  The body
mirrors lines 305-321: count Gaussians, project, broadcast-multiply by the
strictly positive occupations `occ[occ > 0]`, and return
`-trace(...) / sum(occ)`. -/
def fcn (basis ref_basis : List (List CGTOBasis)) (colap : List (List ℚ))
    (coeffM : List (List ℚ)) (occ : List ℚ) : Except String ℚ :=
  let num_gauss := _num_gauss basis ref_basis
  let coeff := coeffM
  match _maximise_overlap coeff colap num_gauss with
  | .error e => .error e
  | .ok projection => .ok (-(trace (mulBroadcast projection (occ.filter (fun x => 0 < x)))) / occ.sum)

/-- Embedding of the column selection in `_coeff_mat_scf` (src/main.py:132):
`mf.mo_coeff[:, mf.mo_occ > 0.]` keeps, in each row of the molecular-orbital
coefficient matrix, exactly the entries whose column has a strictly
positive occupation. -/
def _coeff_mat_scf (mo_coeff : List (List ℚ)) (mo_occ : List ℚ) : List (List ℚ) :=
  mo_coeff.map (fun r => ((r.zip mo_occ).filter (fun p => 0 < p.2)).map Prod.fst)

/-- An element entry of the atom-structure list: either a symbol string or
an atomic number, as in the source's `atomstruc` entries. -/
inductive ElemId where
  | sym (s : String)
  | num (z : ℕ)
deriving DecidableEq, Repr

/-- Python indexing `l[i]`, raising `IndexError` when out of bounds. -/
def pyIndex (l : List ElemId) (i : ℕ) : Except String ElemId :=
  match l[i]? with
  | some e => .ok e
  | none => .error "IndexError"

/-- Left-to-right effectful map over a list in the `Except` monad; the
first failure aborts, as a Python `for` loop does. -/
def exceptMap {α β : Type} (f : α → Except String β) : List α → Except String (List β)
  | [] => .ok []
  | a :: l =>
    match f a, exceptMap f l with
    | .error e, _ => .error e
    | .ok _, .error e => .error e
    | .ok b, .ok bs => .ok (b :: bs)

/-- Embedding of `_get_element_arr` (src/main.py:153).  The source builds
`[self.atomstuc[i][0] for i in range(len(atomstruc))]`: the loop bound is
the length of the module-level global `atomstruc`, while the indexed list
is the instance's own `self.atomstuc`; both appear here as parameters with
the source's spellings.  Afterwards each string entry is replaced by its
atomic number through `self.element_dict` (a missing key raises). -/
def _get_element_arr (atomstuc : List ElemId) (atomstruc : List ElemId)
    (element_dict : String → Option ℕ) : Except String (List ℕ) :=
  match exceptMap (fun i => pyIndex atomstuc i) (List.range atomstruc.length) with
  | .error e => .error e
  | .ok elements_arr =>
    exceptMap
      (fun e =>
        match e with
        | .sym s =>
          match element_dict s with
          | some z => .ok z
          | none => .error "KeyError"
        | .num z => .ok z)
      elements_arr

/-- Gaussian-function count of one basis list as the spec states it: the
sum over all shells of all per-atom bases of `2*angmom + 1`. -/
def gaussCount (bs : List (List CGTOBasis)) : ℕ :=
  (bs.map (fun b => (b.map (fun el => 2 * el.angmom + 1)).sum)).sum

/-- Indices of the strictly positive entries of an occupation vector, in
increasing order. -/
def posIdx (occ : List ℚ) : List ℕ :=
  (List.range occ.length).filter (fun j => 0 < occ.getD j 0)

lemma dot_zero_left : ∀ (l c : List ℚ), (∀ x ∈ l, x = 0) → dot l c = 0 := by
  intro l
  induction l with
  | nil => intro c _; simp [dot]
  | cons a l ih =>
    intro c h
    cases c with
    | nil => simp [dot]
    | cons b c =>
      have ha : a = 0 := h a (by simp)
      simp [dot, List.zipWith_cons_cons, ha]
      have := ih c (fun x hx => h x (by simp [hx]))
      simpa [dot] using this

lemma dot_unit : ∀ (c : List ℚ) (i : ℕ), i < c.length →
    dot ((List.range c.length).map (fun j => if i = j then (1 : ℚ) else 0)) c = c.getD i 0 := by
  intro c
  induction c with
  | nil => intro i h; simp at h
  | cons a c ih =>
    intro i h
    simp only [List.length_cons, List.range_succ_eq_map, List.map_cons, List.map_map]
    cases i with
    | zero =>
      simp only [if_pos rfl]
      have hz : dot ((List.range c.length).map ((fun j => if 0 = j then (1 : ℚ) else 0) ∘ Nat.succ)) c = 0 := by
        apply dot_zero_left
        intro x hx
        obtain ⟨j, _, rfl⟩ := List.mem_map.1 hx
        simp
      simp [dot, List.zipWith_cons_cons] at hz ⊢
      simp [hz]
    | succ k =>
      have hfun : ((fun j => if k + 1 = j then (1 : ℚ) else 0) ∘ Nat.succ) =
          (fun j => if k = j then (1 : ℚ) else 0) := by
        funext j
        simp [Function.comp, Nat.succ_eq_add_one]
      rw [hfun]
      have hk : k < c.length := by simpa using h
      have := ih k hk
      simp [dot, List.zipWith_cons_cons] at this ⊢
      simp [this]

lemma getD_map_self (r : List ℚ) : (List.range r.length).map (fun j => r.getD j 0) = r := by
  apply List.ext_getElem (by simp)
  intro i h1 h2
  simp only [List.getElem_map, List.getElem_range]
  exact List.getD_eq_getElem r 0 h2

lemma length_idMat (n : ℕ) : (idMat n).length = n := by simp [idMat]

lemma matMul_idMat_left (B : List (List ℚ)) (n p : ℕ) (hB : B.length = n)
    (hrect : ∀ r ∈ B, r.length = p) : matMul (idMat n) B = B := by
  cases B with
  | nil =>
    have : n = 0 := by simpa using hB.symm
    subst this
    simp [matMul, idMat]
  | cons r0 B' =>
    have hr0 : r0.length = p := hrect r0 (by simp)
    have hB' : B'.length + 1 = n := by simpa using hB
    apply List.ext_getElem (by simp [matMul, length_idMat, hB])
    intro i h1 h2
    have hin : i < n := by
      simpa [matMul, length_idMat] using h1
    simp only [matMul, List.getElem_map]
    have hilt : i < (idMat n).length := by simp [length_idMat, hin]
    have hrow : (idMat n)[i] =
        (List.range n).map (fun j => if i = j then (1 : ℚ) else 0) := by
      simp [idMat]
    rw [hrow]
    apply List.ext_getElem
    · simp [transpose, hr0, hrect _ (List.getElem_mem h2)]
    · intro j hj1 hj2
      have hjp : j < p := by simpa [transpose, hr0] using hj1
      simp only [transpose, List.headD_cons, hr0, List.getElem_map, List.getElem_range]
      have hcol : ((r0 :: B').map (fun r => r.getD j 0)).length = (r0 :: B').length := by simp
      have hilen : i < ((r0 :: B').map (fun r => r.getD j 0)).length := by simp; omega
      have hd := dot_unit ((r0 :: B').map (fun r => r.getD j 0)) i (by simp; omega)
      rw [hcol, hB] at hd
      rw [hd]
      rw [List.getD_eq_getElem _ 0 hilen]
      simp only [List.getElem_map]
      exact List.getD_eq_getElem _ 0 (by rw [hrect _ (List.getElem_mem h2)]; exact hjp)

lemma toMatrix_idMat (n : ℕ) : toMatrix n (idMat n) = 1 := by
  ext i j
  have h1 : (idMat n).getD i.val [] =
      (List.range n).map (fun k => if i.val = k then (1 : ℚ) else 0) := by
    rw [List.getD_eq_getElem _ _ (by simp [length_idMat, i.isLt])]
    simp [idMat]
  have h2 : ((List.range n).map (fun k => if i.val = k then (1 : ℚ) else 0)).getD j.val 0 =
      if i.val = j.val then (1 : ℚ) else 0 := by
    rw [List.getD_eq_getElem _ _ (by simp [j.isLt])]
    simp
  simp only [toMatrix, Matrix.of_apply, h1, h2, Matrix.one_apply]
  simp [Fin.ext_iff]

lemma ofMatrix_one (n : ℕ) : ofMatrix (1 : Matrix (Fin n) (Fin n) ℚ) = idMat n := by
  apply List.ext_getElem (by simp [ofMatrix, idMat])
  intro i h1 h2
  simp only [ofMatrix, idMat, List.getElem_map, List.getElem_finRange, List.getElem_range]
  apply List.ext_getElem (by simp)
  intro j hj1 hj2
  simp only [List.getElem_map, List.getElem_finRange, List.getElem_range, Matrix.one_apply]
  simp [Fin.ext_iff]

lemma inverse_idMat (n : ℕ) : inverse (idMat n) = idMat n := by
  unfold inverse
  rw [length_idMat, toMatrix_idMat, Matrix.det_one, inv_one, Matrix.adjugate_one, one_smul,
    ofMatrix_one]

lemma maximise_overlap_eq (coeff colap : List (List ℚ)) (ng : ℕ × ℕ)
    (S12 S21 S22 : List (List ℚ))
    (h12 : _cross_selcet colap ng "S_12" = .ok S12)
    (h21 : _cross_selcet colap ng "S_21" = .ok S21)
    (h22 : _cross_selcet colap ng "S_22" = .ok S22) :
    _maximise_overlap coeff colap ng =
      .ok (matMul (transpose coeff) (matMul S21 (matMul (inverse S22) (matMul S12 coeff)))) := by
  simp only [_maximise_overlap]
  rw [h12, h21, h22]

/-- C1 (amended): `_maximise_overlap` inverts the quadrant selected under
the name `S_22`, right-multiplies the inverse by the product of the
quadrant named `S_12` with `C`, left-multiplies the result by the quadrant
named `S_21`, and sandwiches with `Cᵗ`; i.e. it returns
`Cᵗ · S21 · S22⁻¹ · S12 · C` in terms of the names used by
`_cross_selcet` (the claim stated the two cross quadrants the other way
around). -/
theorem C1_projection_formula_swapped (coeff colap : List (List ℚ)) (ng : ℕ × ℕ)
    (S12 S21 S22 : List (List ℚ))
    (h12 : _cross_selcet colap ng "S_12" = .ok S12)
    (h21 : _cross_selcet colap ng "S_21" = .ok S21)
    (h22 : _cross_selcet colap ng "S_22" = .ok S22) :
    _maximise_overlap coeff colap ng =
      .ok (matMul (transpose coeff) (matMul S21 (matMul (inverse S22) (matMul S12 coeff)))) := by
  simp only [_maximise_overlap]
  rw [h12, h21, h22]

/-- Witness for C1 (amended) at a concrete 2×2 cross-overlap matrix. -/
theorem C1_witness :
    _maximise_overlap [[2]] [[1, 2], [3, 4]] (1, 1) =
      .ok (matMul (transpose [[2]])
        (matMul [[2]] (matMul (inverse [[4]]) (matMul [[3]] [[2]])))) :=
  C1_projection_formula_swapped [[2]] [[1, 2], [3, 4]] (1, 1) [[3]] [[2]] [[4]]
    (by decide) (by decide) (by decide)

/-- Counterexample to C1 as stated: at a concrete cross-overlap matrix
whose named quadrants are `S_12 = [[0,1],[0,0]]`, `S_21 = [[0,0],[1,0]]`,
`S_22 = I₂` and with `C = I₂`, the code returns `[[0,0],[0,1]]` while the
claimed formula `Cᵗ · S12 · S22⁻¹ · S21 · C` (with the quadrants taken
under those names) evaluates to `[[1,0],[0,0]]`. -/
theorem C1_counterexample :
    _cross_selcet [[0, 0, 0, 0], [0, 0, 1, 0], [0, 1, 1, 0], [0, 0, 0, 1]] (2, 2) "S_12" =
      .ok [[0, 1], [0, 0]] ∧
    _cross_selcet [[0, 0, 0, 0], [0, 0, 1, 0], [0, 1, 1, 0], [0, 0, 0, 1]] (2, 2) "S_21" =
      .ok [[0, 0], [1, 0]] ∧
    _cross_selcet [[0, 0, 0, 0], [0, 0, 1, 0], [0, 1, 1, 0], [0, 0, 0, 1]] (2, 2) "S_22" =
      .ok [[1, 0], [0, 1]] ∧
    _maximise_overlap [[1, 0], [0, 1]]
      [[0, 0, 0, 0], [0, 0, 1, 0], [0, 1, 1, 0], [0, 0, 0, 1]] (2, 2) = .ok [[0, 0], [0, 1]] ∧
    matMul (transpose [[1, 0], [0, 1]])
      (matMul [[0, 1], [0, 0]]
        (matMul (inverse [[1, 0], [0, 1]]) (matMul [[0, 0], [1, 0]] [[1, 0], [0, 1]]))) =
      [[1, 0], [0, 0]] ∧
    ([[0, 0], [0, 1]] : List (List ℚ)) ≠ [[1, 0], [0, 0]] := by
  have hid : (idMat 2 : List (List ℚ)) = [[1, 0], [0, 1]] := by decide
  have hinv : inverse ([[1, 0], [0, 1]] : List (List ℚ)) = [[1, 0], [0, 1]] := by
    rw [← hid, inverse_idMat]
  refine ⟨by decide, by decide, by decide, ?_, ?_, by decide⟩
  · rw [maximise_overlap_eq _ _ _ [[0, 1], [0, 0]] [[0, 0], [1, 0]] [[1, 0], [0, 1]]
      (by decide) (by decide) (by decide), hinv]
    norm_num [matMul, transpose, dot, List.range_succ]
  · rw [hinv]
    norm_num [matMul, transpose, dot, List.range_succ]

/-- C7: when the quadrants selected under the names `S_22`, `S_12` and
`S_21` are all identity matrices matching the coefficient matrix's row
count, the projection returned by `_maximise_overlap` is `Cᵗ · C`,
independently of the inversion step. -/
theorem C7_identity_projection (C colap : List (List ℚ)) (ng : ℕ × ℕ) (n p : ℕ)
    (hC : C.length = n) (hrect : ∀ r ∈ C, r.length = p)
    (h12 : _cross_selcet colap ng "S_12" = .ok (idMat n))
    (h21 : _cross_selcet colap ng "S_21" = .ok (idMat n))
    (h22 : _cross_selcet colap ng "S_22" = .ok (idMat n)) :
    _maximise_overlap C colap ng = .ok (matMul (transpose C) C) := by
  rw [maximise_overlap_eq C colap ng _ _ _ h12 h21 h22, inverse_idMat,
    matMul_idMat_left C n p hC hrect, matMul_idMat_left C n p hC hrect,
    matMul_idMat_left C n p hC hrect]

/-- Witness for C7 at a concrete 2×2 cross-overlap matrix whose selected
quadrants are all the 1×1 identity. -/
theorem C7_witness :
    _maximise_overlap [[3]] [[5, 1], [1, 1]] (1, 1) = .ok (matMul (transpose [[3]]) [[3]]) :=
  C7_identity_projection [[3]] [[5, 1], [1, 1]] (1, 1) 1 1 (by decide)
    (by intro r hr; fin_cases hr; decide) (by decide) (by decide) (by decide)

lemma getD_zipWith_mul : ∀ (r v : List ℚ) (i : ℕ),
    (List.zipWith (· * ·) r v).getD i 0 = r.getD i 0 * v.getD i 0 := by
  intro r
  induction r with
  | nil => intro v i; simp
  | cons a r ih =>
    intro v i
    cases v with
    | nil => simp
    | cons b v =>
      cases i with
      | zero => simp [List.zipWith_cons_cons]
      | succ k =>
        simp only [List.zipWith_cons_cons, List.getD_cons_succ]
        exact ih v k

lemma trace_mulBroadcast (P : List (List ℚ)) (v : List ℚ) :
    trace (mulBroadcast P v) =
      ((List.range P.length).map (fun i => (P.getD i []).getD i 0 * v.getD i 0)).sum := by
  simp only [trace, mulBroadcast, List.length_map]
  congr 1
  apply List.map_congr_left
  intro i hi
  have hi' : i < P.length := List.mem_range.mp hi
  have h1 : (P.map (fun r => List.zipWith (· * ·) r v)).getD i [] =
      List.zipWith (· * ·) (P.getD i []) v := by
    rw [List.getD_eq_getElem _ _ (by simpa using hi'), List.getElem_map,
      List.getD_eq_getElem _ _ hi']
  rw [h1, getD_zipWith_mul]

lemma maximise_concrete : _maximise_overlap [[1]] [[2, 1], [1, 1]] (1, 1) = .ok [[1]] := by
  have h1 : inverse [[(1 : ℚ)]] = [[1]] := by
    have h : ([[(1 : ℚ)]] : List (List ℚ)) = idMat 1 := by decide
    rw [h, inverse_idMat]
  rw [maximise_overlap_eq _ _ _ [[1]] [[1]] [[1]] (by decide) (by decide) (by decide), h1]
  norm_num [matMul, transpose, dot, List.range_succ]

/-- C4: the scalar returned by `fcn` is the negated trace of the projection
matrix multiplied elementwise (with broadcasting) by the strictly positive
occupations `occ[occ > 0]`, divided by the sum of the full occupation
vector; and that trace is the sum over the diagonal of the projection
weighted by the positive occupations. -/
theorem C4_objective_formula (basis ref_basis : List (List CGTOBasis))
    (colap coeffM P : List (List ℚ)) (occ : List ℚ)
    (hP : _maximise_overlap coeffM colap (_num_gauss basis ref_basis) = .ok P) :
    fcn basis ref_basis colap coeffM occ =
      .ok (-(trace (mulBroadcast P (occ.filter (fun x => 0 < x)))) / occ.sum) ∧
    trace (mulBroadcast P (occ.filter (fun x => 0 < x))) =
      ((List.range P.length).map
        (fun i => (P.getD i []).getD i 0 * (occ.filter (fun x => 0 < x)).getD i 0)).sum := by
  refine ⟨?_, trace_mulBroadcast P _⟩
  simp only [fcn]
  rw [hP]

/-- Witness for C4 at a concrete evaluation with projection `[[1]]` and
occupation `[3]`. -/
theorem C4_witness :
    fcn [[⟨0⟩]] [[⟨0⟩]] [[2, 1], [1, 1]] [[1]] [3] =
      .ok (-(trace (mulBroadcast [[1]] (([3] : List ℚ).filter (fun x => 0 < x)))) /
        ([3] : List ℚ).sum) :=
  (C4_objective_formula [[⟨0⟩]] [[⟨0⟩]] [[2, 1], [1, 1]] [[1]] [[1]] [3]
    (by rw [show _num_gauss [[(⟨0⟩ : CGTOBasis)]] [[⟨0⟩]] = (1, 1) from by decide]
        exact maximise_concrete)).1

/-- C9 (amended): the objective evaluation is a pure function of the
declared arguments together with the occupation vector read from the
module-level global `system`; moreover it consumes that global occupation
only through its strictly positive entries and its total sum. -/
theorem C9_fcn_purity_amended :
    (∀ (basis ref_basis basis2 ref_basis2 : List (List CGTOBasis))
      (colap coeffM colap2 coeffM2 : List (List ℚ)) (occ occ2 : List ℚ),
      basis = basis2 → ref_basis = ref_basis2 → colap = colap2 → coeffM = coeffM2 → occ = occ2 →
      fcn basis ref_basis colap coeffM occ = fcn basis2 ref_basis2 colap2 coeffM2 occ2) ∧
    (∀ (basis ref_basis : List (List CGTOBasis)) (colap coeffM : List (List ℚ))
      (occ occ2 : List ℚ),
      occ.filter (fun x => 0 < x) = occ2.filter (fun x => 0 < x) → occ.sum = occ2.sum →
      fcn basis ref_basis colap coeffM occ = fcn basis ref_basis colap coeffM occ2) := by
  constructor
  · intro b rb b2 rb2 c cm c2 cm2 o o2 h1 h2 h3 h4 h5
    subst h1; subst h2; subst h3; subst h4; subst h5
    rfl
  · intro b rb c cm o o2 h1 h2
    simp only [fcn, h1, h2]

/-- Witness for C9 (amended): two occupation vectors with the same positive
part and the same sum give the same objective value. -/
theorem C9_witness :
    fcn [[⟨0⟩]] [[⟨0⟩]] [[2, 1], [1, 1]] [[1]] [2, 0] =
      fcn [[⟨0⟩]] [[⟨0⟩]] [[2, 1], [1, 1]] [[1]] [2] :=
  C9_fcn_purity_amended.2 [[⟨0⟩]] [[⟨0⟩]] [[2, 1], [1, 1]] [[1]] [2, 0] [2]
    (by decide) (by simp)

/-- Counterexample to C9 as stated: two evaluations of `fcn` with identical
declared arguments but different occupation vectors read from the global
`system` return different objective values, so the evaluation is not a pure
function of the declared arguments alone. -/
theorem C9_counterexample :
    fcn [[⟨0⟩]] [[⟨0⟩]] [[2, 1], [1, 1]] [[1]] [2] = .ok (-1) ∧
    fcn [[⟨0⟩]] [[⟨0⟩]] [[2, 1], [1, 1]] [[1]] [4, -1] = .ok (-4/3) ∧
    (Except.ok (-1 : ℚ) : Except String ℚ) ≠ .ok (-4/3) := by
  have hng : _num_gauss [[(⟨0⟩ : CGTOBasis)]] [[⟨0⟩]] = (1, 1) := by decide
  refine ⟨?_, ?_, ?_⟩
  · simp only [fcn, hng, maximise_concrete]
    norm_num [trace, mulBroadcast, List.range_succ]
  · simp only [fcn, hng, maximise_concrete]
    norm_num [trace, mulBroadcast, List.range_succ]
  · simp only [ne_eq, Except.ok.injEq]
    norm_num

lemma foldl_shell_count (l : List CGTOBasis) (n : ℕ) :
    l.foldl (fun n el => n + (2 * el.angmom + 1)) n = n + (l.map (fun el => 2 * el.angmom + 1)).sum := by
  induction l generalizing n with
  | nil => simp
  | cons a l ih =>
    rw [List.foldl_cons, ih]
    simp only [List.map_cons, List.sum_cons]
    omega

lemma foldl_basis_count (bs : List (List CGTOBasis)) (n : ℕ) :
    bs.foldl (fun n b => b.foldl (fun n el => n + (2 * el.angmom + 1)) n) n = n + gaussCount bs := by
  induction bs generalizing n with
  | nil => simp [gaussCount]
  | cons b bs ih =>
    rw [List.foldl_cons, foldl_shell_count, ih]
    simp only [gaussCount, List.map_cons, List.sum_cons]
    omega

/-- C6: each count returned by `_num_gauss` is the sum over all shells of
all per-atom bases of `2*angmom + 1`; a basis with shell angular momenta
`[0, 1]` counts `4`; and the count is additive over concatenation of basis
lists. -/
theorem C6_num_gauss_shell_sums :
    (∀ basis restbasis : List (List CGTOBasis),
      _num_gauss basis restbasis = (gaussCount basis, gaussCount restbasis)) ∧
    (∀ b1 b2 restbasis : List (List CGTOBasis),
      (_num_gauss (b1 ++ b2) restbasis).1 = (_num_gauss b1 restbasis).1 + (_num_gauss b2 restbasis).1) ∧
    (_num_gauss [[⟨0⟩, ⟨1⟩]] []).1 = 4 := by
  have key : ∀ basis restbasis : List (List CGTOBasis),
      _num_gauss basis restbasis = (gaussCount basis, gaussCount restbasis) := by
    intro basis restbasis
    simp [_num_gauss, foldl_basis_count]
  refine ⟨key, ?_, by decide⟩
  intro b1 b2 restbasis
  simp [key, gaussCount]

/-- C5: an unrecognized direction makes `_cross_selcet` fail with the
message "no direction specified", and each of the four valid quadrant
names returns a slice without failing. -/
theorem C5_cross_selcet_error_handling :
    (∀ (crossmat : List (List ℚ)) (num_gauss : ℕ × ℕ) (direction : String),
      direction ≠ "S_11" → direction ≠ "S_12" → direction ≠ "S_21" → direction ≠ "S_22" →
      _cross_selcet crossmat num_gauss direction = .error "no direction specified") ∧
    (∀ (crossmat : List (List ℚ)) (num_gauss : ℕ × ℕ),
      (∃ v, _cross_selcet crossmat num_gauss "S_11" = .ok v) ∧
      (∃ v, _cross_selcet crossmat num_gauss "S_12" = .ok v) ∧
      (∃ v, _cross_selcet crossmat num_gauss "S_21" = .ok v) ∧
      (∃ v, _cross_selcet crossmat num_gauss "S_22" = .ok v)) := by
  constructor
  · intro crossmat num_gauss direction h11 h12 h21 h22
    simp [_cross_selcet, h11, h12, h21, h22]
  · intro crossmat num_gauss
    exact ⟨⟨(crossmat.take num_gauss.1).map (fun r => r.take num_gauss.1), by simp [_cross_selcet]⟩,
      ⟨(crossmat.drop num_gauss.1).map
          (fun r => pyTake r ((crossmat.length : ℤ) - (num_gauss.2 : ℤ))), by simp [_cross_selcet]⟩,
      ⟨(crossmat.take num_gauss.1).map (fun r => r.drop num_gauss.1), by simp [_cross_selcet]⟩,
      ⟨(crossmat.drop num_gauss.1).map (fun r => r.drop num_gauss.1), by simp [_cross_selcet]⟩⟩

/-- C2: with `N` the matrix dimension, the quadrant named `S_12` is rows
`[n_trial, N)` crossed with columns `[0, N - n_ref)` (the stop being the
integer `N - n_ref`, which is the honest column interval whenever
`n_ref ≤ N`); the stop coincides with `n_trial`, and hence the selected
columns with `[0, n_trial)`, exactly when `N = n_trial + n_ref`; and the
quadrant named `S_21` is rows `[0, n_trial)` crossed with columns
`[n_trial, N)`. -/
theorem C2_cross_selcet_slices :
    (∀ (crossmat : List (List ℚ)) (n_trial n_ref : ℕ), n_ref ≤ crossmat.length →
      _cross_selcet crossmat (n_trial, n_ref) "S_12" =
        .ok ((crossmat.drop n_trial).map (fun r => r.take (crossmat.length - n_ref)))) ∧
    (∀ (N n_trial n_ref : ℕ), ((N : ℤ) - (n_ref : ℤ) = (n_trial : ℤ)) ↔ (N : ℤ) = n_trial + n_ref) ∧
    (∀ (crossmat : List (List ℚ)) (n_trial n_ref : ℕ), crossmat.length = n_trial + n_ref →
      _cross_selcet crossmat (n_trial, n_ref) "S_12" =
        .ok ((crossmat.drop n_trial).map (fun r => r.take n_trial))) ∧
    (∀ (crossmat : List (List ℚ)) (n_trial n_ref : ℕ),
      _cross_selcet crossmat (n_trial, n_ref) "S_21" =
        .ok ((crossmat.take n_trial).map (fun r => r.drop n_trial))) := by
  have h12 : ∀ (crossmat : List (List ℚ)) (n_trial n_ref : ℕ), n_ref ≤ crossmat.length →
      _cross_selcet crossmat (n_trial, n_ref) "S_12" =
        .ok ((crossmat.drop n_trial).map (fun r => r.take (crossmat.length - n_ref))) := by
    intro crossmat n_trial n_ref h
    have hmap : crossmat.map (fun r => pyTake r ((crossmat.length : ℤ) - (n_ref : ℤ))) =
        crossmat.map (fun r => r.take (crossmat.length - n_ref)) := by
      apply List.map_congr_left
      intro r _
      rw [pyTake, if_neg (by omega)]
      congr 1
      omega
    simp [_cross_selcet, hmap]
  refine ⟨h12, ?_, ?_, ?_⟩
  · intro N n_trial n_ref
    omega
  · intro crossmat n_trial n_ref h
    rw [h12 crossmat n_trial n_ref (by omega), h]
    simp
  · intro crossmat n_trial n_ref
    simp [_cross_selcet]

/-- Witness for C2 on a concrete 2×2 matrix split as 1 + 1. -/
theorem C2_witness :
    _cross_selcet [[1, 2], [3, 4]] (1, 1) "S_12" =
      .ok (([[1, 2], [3, 4]].drop 1).map (fun r => r.take ([[1, 2], [3, 4]].length - 1))) ∧
    _cross_selcet [[1, 2], [3, 4]] (1, 1) "S_12" =
      .ok (([[1, 2], [3, 4]].drop 1).map (fun r => r.take 1)) :=
  ⟨C2_cross_selcet_slices.1 [[1, 2], [3, 4]] 1 1 (by decide),
    C2_cross_selcet_slices.2.2.1 [[1, 2], [3, 4]] 1 1 (by decide)⟩

/-- C3: for a square matrix of dimension `N` whose per-basis counts satisfy
`n_trial + n_ref = N` with both positive, `S_11` has shape
`(n_trial, n_trial)`, `S_22` has shape `(n_ref, n_ref)`, and the row counts
of `S_12` and `S_21` sum to `N`. -/
theorem C3_quadrant_shapes (crossmat : List (List ℚ)) (N n_trial n_ref : ℕ)
    (hlen : crossmat.length = N) (hsq : ∀ r ∈ crossmat, r.length = N)
    (hsum : n_trial + n_ref = N) (ht : 0 < n_trial) (hr : 0 < n_ref) :
    (∃ S11, _cross_selcet crossmat (n_trial, n_ref) "S_11" = .ok S11 ∧
      S11.length = n_trial ∧ ∀ r ∈ S11, r.length = n_trial) ∧
    (∃ S22, _cross_selcet crossmat (n_trial, n_ref) "S_22" = .ok S22 ∧
      S22.length = n_ref ∧ ∀ r ∈ S22, r.length = n_ref) ∧
    (∃ S12 S21, _cross_selcet crossmat (n_trial, n_ref) "S_12" = .ok S12 ∧
      _cross_selcet crossmat (n_trial, n_ref) "S_21" = .ok S21 ∧
      S12.length + S21.length = N) := by
  refine ⟨⟨(crossmat.take n_trial).map (fun r => r.take n_trial),
      by simp [_cross_selcet], ?_, ?_⟩,
    ⟨(crossmat.drop n_trial).map (fun r => r.drop n_trial),
      by simp [_cross_selcet], ?_, ?_⟩,
    ⟨(crossmat.drop n_trial).map (fun r => pyTake r ((crossmat.length : ℤ) - (n_ref : ℤ))),
      (crossmat.take n_trial).map (fun r => r.drop n_trial),
      by simp [_cross_selcet], by simp [_cross_selcet], ?_⟩⟩
  · simp only [List.length_map, List.length_take]
    omega
  · intro r hmem
    obtain ⟨r', hmem', rfl⟩ := List.mem_map.1 hmem
    have := hsq r' (List.take_subset _ _ hmem')
    simp only [List.length_take, this]
    omega
  · simp only [List.length_map, List.length_drop]
    omega
  · intro r hmem
    obtain ⟨r', hmem', rfl⟩ := List.mem_map.1 hmem
    have := hsq r' (List.drop_subset _ _ hmem')
    simp only [List.length_drop, this]
    omega
  · simp only [List.length_map, List.length_drop, List.length_take]
    omega

/-- Witness for C3 on a concrete 2×2 matrix split as 1 + 1. -/
theorem C3_witness :
    ∃ S11, _cross_selcet [[1, 2], [3, 4]] (1, 1) "S_11" = .ok S11 ∧
      S11.length = 1 ∧ ∀ r ∈ S11, r.length = 1 :=
  (C3_quadrant_shapes [[1, 2], [3, 4]] 2 1 1 (by decide)
    (by intro r hr; fin_cases hr <;> decide) (by decide) (by decide) (by decide)).1

lemma filter_of_map {α β : Type} (f : α → β) (p : β → Bool) :
    ∀ l : List α, (l.map f).filter p = (l.filter (fun a => p (f a))).map f := by
  intro l
  induction l with
  | nil => simp
  | cons a l ih =>
    by_cases h : p (f a) <;> simp [List.filter_cons, h, ih]

lemma posIdx_cons (b : ℚ) (occ : List ℚ) :
    posIdx (b :: occ) = (if 0 < b then [0] else []) ++ (posIdx occ).map Nat.succ := by
  simp only [posIdx, List.length_cons, List.range_succ_eq_map, List.filter_cons]
  have ht : List.filter (fun j => decide (0 < (b :: occ).getD j 0))
      ((List.range occ.length).map Nat.succ) =
      ((List.range occ.length).filter (fun j => decide (0 < occ.getD j 0))).map Nat.succ := by
    rw [filter_of_map]
    refine congrArg (List.map Nat.succ) (List.filter_congr ?_)
    intro j _
    simp [List.getD_cons_succ]
  rw [ht]
  by_cases hb : (0 : ℚ) < b
  · simp [hb]
  · simp [hb]

lemma maskSel_eq_posIdx : ∀ (r occ : List ℚ), r.length = occ.length →
    ((r.zip occ).filter (fun p => 0 < p.2)).map Prod.fst =
      (posIdx occ).map (fun j => r.getD j 0) := by
  intro r
  induction r with
  | nil =>
    intro occ h
    have : occ = [] := by
      cases occ with
      | nil => rfl
      | cons x xs => simp at h
    subst this
    simp [posIdx]
  | cons a r ih =>
    intro occ h
    cases occ with
    | nil => simp at h
    | cons b occ =>
      have hlen : r.length = occ.length := by simpa using h
      rw [posIdx_cons]
      simp only [List.zip_cons_cons, List.filter_cons, List.map_append, List.map_map]
      by_cases hb : (0 : ℚ) < b
      · simpa [hb, Function.comp_def, List.getD_cons_succ, List.getElem?_cons_succ]
          using ih occ hlen
      · simpa [hb, Function.comp_def, List.getD_cons_succ, List.getElem?_cons_succ]
          using ih occ hlen

/-- C8: under the SCF shapes (each coefficient row has one entry per
orbital), the matrix consumed by the projection evaluator keeps, in each
row, exactly the entries at the strictly positive occupation indices, in
order — i.e. exactly the columns of the molecular-orbital coefficient
matrix whose occupation is strictly positive, and no others. -/
theorem C8_coeff_positive_columns (mo_coeff : List (List ℚ)) (mo_occ : List ℚ)
    (hrect : ∀ r ∈ mo_coeff, r.length = mo_occ.length) :
    _coeff_mat_scf mo_coeff mo_occ =
      mo_coeff.map (fun r => (posIdx mo_occ).map (fun j => r.getD j 0)) := by
  unfold _coeff_mat_scf
  apply List.map_congr_left
  intro r hr
  exact maskSel_eq_posIdx r mo_occ (hrect r hr)

/-- Witness for C8 on a 2×2 coefficient matrix with occupations `[2, -1]`. -/
theorem C8_witness :
    _coeff_mat_scf [[1, 2], [3, 4]] [2, -1] =
      [[1, 2], [3, 4]].map (fun r => (posIdx [2, -1]).map (fun j => r.getD j 0)) :=
  C8_coeff_positive_columns [[1, 2], [3, 4]] [2, -1] (by intro r hr; fin_cases hr <;> decide)

lemma exceptMap_map {α β γ : Type} (g : α → β) (f : β → Except String γ) :
    ∀ l : List α, exceptMap f (l.map g) = exceptMap (fun a => f (g a)) l := by
  intro l
  induction l with
  | nil => rfl
  | cons a l ih => simp [exceptMap, ih]

lemma exceptMap_congr {α β : Type} (f g : α → Except String β) :
    ∀ l : List α, (∀ a ∈ l, f a = g a) → exceptMap f l = exceptMap g l := by
  intro l
  induction l with
  | nil => intro _; rfl
  | cons a l ih =>
    intro h
    simp only [exceptMap]
    rw [h a (by simp), ih (fun x hx => h x (by simp [hx]))]

lemma pyIndex_err : ∀ (l : List ElemId) (n : ℕ), l.length < n →
    exceptMap (fun i => pyIndex l i) (List.range n) = .error "IndexError" := by
  intro l
  induction l with
  | nil =>
    intro n hn
    cases n with
    | zero => simp at hn
    | succ m =>
      rw [List.range_succ_eq_map]
      simp [exceptMap, pyIndex]
  | cons a l ih =>
    intro n hn
    cases n with
    | zero => simp at hn
    | succ m =>
      rw [List.range_succ_eq_map]
      have h0 : pyIndex (a :: l) 0 = .ok a := by simp [pyIndex]
      have ht : exceptMap (fun i => pyIndex (a :: l) i) ((List.range m).map Nat.succ) =
          .error "IndexError" := by
        rw [exceptMap_map]
        rw [exceptMap_congr (fun i => pyIndex (a :: l) (Nat.succ i)) (fun i => pyIndex l i)
          (List.range m) (fun i _ => by simp [pyIndex])]
        exact ih m (by simpa using hn)
      simp only [exceptMap, h0, ht]

lemma pyIndex_take (l : List ElemId) (n : ℕ) :
    exceptMap (fun i => pyIndex l i) (List.range n) =
      exceptMap (fun i => pyIndex (l.take n) i) (List.range n) := by
  apply exceptMap_congr
  intro i hi
  have hin : i < n := List.mem_range.mp hi
  simp [pyIndex, List.getElem?_take, hin]

/-- C10: `_get_element_arr` iterates over the length of the global
`atomstruc` while indexing the instance's own `self.atomstuc`; with a
shorter instance list it fails with an out-of-bounds index error, and with
a longer instance list the trailing atoms are silently omitted (the result
only depends on the first `len(atomstruc)` entries). -/
theorem C10_element_arr_global_length (selfAtoms globalAtoms : List ElemId)
    (element_dict : String → Option ℕ) :
    (selfAtoms.length < globalAtoms.length →
      _get_element_arr selfAtoms globalAtoms element_dict = .error "IndexError") ∧
    (globalAtoms.length ≤ selfAtoms.length →
      _get_element_arr selfAtoms globalAtoms element_dict =
        _get_element_arr (selfAtoms.take globalAtoms.length) globalAtoms element_dict) := by
  constructor
  · intro h
    unfold _get_element_arr
    rw [pyIndex_err selfAtoms globalAtoms.length h]
  · intro _
    unfold _get_element_arr
    rw [pyIndex_take selfAtoms globalAtoms.length]

/-- Witness for C10: a too-short atom list fails with "IndexError"; a
longer atom list gives the same element array as its truncation. -/
theorem C10_witness :
    _get_element_arr [] [ElemId.num 3] (fun _ => none) = .error "IndexError" ∧
    _get_element_arr [ElemId.num 1, ElemId.num 2] [ElemId.num 3] (fun _ => none) =
      _get_element_arr ([ElemId.num 1, ElemId.num 2].take [ElemId.num 3].length)
        [ElemId.num 3] (fun _ => none) :=
  ⟨(C10_element_arr_global_length [] [ElemId.num 3] (fun _ => none)).1 (by decide),
    (C10_element_arr_global_length [ElemId.num 1, ElemId.num 2] [ElemId.num 3]
      (fun _ => none)).2 (by decide)⟩

/-- Witness for C5 at the invalid direction "S_99" and at concrete data
for the four valid names. -/
theorem C5_witness :
    _cross_selcet [[1, 2], [3, 4]] (1, 1) "S_99" = .error "no direction specified" ∧
    (∃ v, _cross_selcet [[1, 2], [3, 4]] (1, 1) "S_11" = .ok v) :=
  ⟨C5_cross_selcet_error_handling.1 [[1, 2], [3, 4]] (1, 1) "S_99"
      (by decide) (by decide) (by decide) (by decide),
    (C5_cross_selcet_error_handling.2 [[1, 2], [3, 4]] (1, 1)).1⟩
